import Mathlib

/-!
Verification of the event-impact / correlation core of the brent-oil-event-analysis
repository. The React frontend under `dashboard/frontend/src` is embedded directly
from its source; the backend analysis engine (TimeSeriesStore, ReturnsEngine,
ImpactAnalyzer, CorrelationAnalyzer) is shipped only as an API surface, so those
components are modelled from the specification, as marked on each definition.
-/

namespace BrentOil

/-- Modelled from the spec (§3 PricePoint): a dated price observation. Dates are
represented as integer day indices; prices as exact rationals. -/
structure PricePoint where
  date : ℤ
  price : ℚ
deriving DecidableEq, Repr

/-- Modelled from the spec (§3 Event): an event has a date and a title unique
within the catalog; the type/metadata fields play no role in the impact claims. -/
structure Event where
  date : ℤ
  title : String
deriving DecidableEq, Repr

/-- Modelled from the spec (§3 ImpactResult): the price-impact fields of an
ImpactResult. The volatility and significance fields are not touched by the
claims under verification and are omitted from the model. -/
structure ImpactResult where
  event : Event
  window_days : ℤ
  pre_avg : ℚ
  post_avg : ℚ
  percent_change : ℚ
deriving DecidableEq, Repr

/-- Arithmetic mean of a list of rationals (sum divided by length). -/
def mean (xs : List ℚ) : ℚ := xs.sum / (xs.length : ℚ)

/-- Modelled from the spec (§4.4 ImpactAnalyzer.analyze): the prices in the
pre-event window [event.date - windowDays, event.date). -/
def preWindow (e : Event) (w : ℤ) (series : List PricePoint) : List ℚ :=
  (series.filter (fun p => e.date - w ≤ p.date ∧ p.date < e.date)).map PricePoint.price

/-- Modelled from the spec (§4.4 ImpactAnalyzer.analyze): the prices in the
post-event window (event.date, event.date + windowDays]. -/
def postWindow (e : Event) (w : ℤ) (series : List PricePoint) : List ℚ :=
  (series.filter (fun p => e.date < p.date ∧ p.date ≤ e.date + w)).map PricePoint.price

/-- Modelled from the spec (§4.4 ImpactAnalyzer.analyze): pre_avg is the mean
price over the pre window, post_avg the mean over the post window, and
percent_change = (post_avg - pre_avg) / pre_avg * 100. The backend that computes
this is absent from the reviewed source; only its API output shape appears in
`App.js` (eventImpact.impact). -/
def analyze (e : Event) (w : ℤ) (series : List PricePoint) : ImpactResult :=
  { event := e
    window_days := w
    pre_avg := mean (preWindow e w series)
    post_avg := mean (postWindow e w series)
    percent_change := (mean (postWindow e w series) - mean (preWindow e w series))
      / mean (preWindow e w series) * 100 }

/-- Absolute value of a rational, written as the branch JavaScript's `Math.abs`
takes. -/
def absQ (x : ℚ) : ℚ := if x < 0 then -x else x

/-- Modelled from the spec (§4.5 CorrelationAnalyzer.rank): the sort order of
the ranked table — a result comes before another when its percent change is
larger in magnitude, with ties broken by ascending event date. -/
def impactBefore (a b : ImpactResult) : Prop :=
  absQ b.percent_change < absQ a.percent_change
    ∨ (absQ a.percent_change = absQ b.percent_change ∧ a.event.date ≤ b.event.date)

instance : DecidableRel impactBefore := fun a b => by
  unfold impactBefore
  infer_instance

instance : IsTotal ImpactResult impactBefore where
  total a b := by
    rcases lt_trichotomy (absQ a.percent_change) (absQ b.percent_change) with h | h | h
    · exact Or.inr (Or.inl h)
    · rcases le_total a.event.date b.event.date with hd | hd
      · exact Or.inl (Or.inr ⟨h, hd⟩)
      · exact Or.inr (Or.inr ⟨h.symm, hd⟩)
    · exact Or.inl (Or.inl h)

instance : IsTrans ImpactResult impactBefore where
  trans a b c hab hbc := by
    rcases hab with h | ⟨h1, h2⟩ <;> rcases hbc with h' | ⟨h1', h2'⟩
    · exact Or.inl (lt_trans h' h)
    · exact Or.inl (h1' ▸ h)
    · exact Or.inl (by rw [h1]; exact h')
    · exact Or.inr ⟨h1.trans h1', le_trans h2 h2'⟩

/-- Modelled from the spec (§4.5 CorrelationAnalyzer.rank): the backend
CorrelationAnalyzer is not under src/. rank analyzes every event and sorts the
results descending by absolute percent change, ties broken by ascending date. -/
def rank (events : List Event) (w : ℤ) (series : List PricePoint) :
    List ImpactResult :=
  List.insertionSort impactBefore (events.map (fun e => analyze e w series))

/-- Modelled from the spec (§4.3 numeric policy and §7 ComputationError): the
analysis of one event fails — instead of producing infinite or NaN output —
when either window holds no points or the pre-window average is zero; a
successful analysis returns the ImpactResult of `analyze`. -/
def analyzeOpt (e : Event) (w : ℤ) (series : List PricePoint) :
    Option ImpactResult :=
  if preWindow e w series = [] ∨ postWindow e w series = []
      ∨ mean (preWindow e w series) = 0
  then none
  else some (analyze e w series)

/-- Modelled from the spec (§7 propagation policy): the aggregation tolerates
per-event failures — failing entries are omitted from the ranked table and the
count of omissions is reported alongside the result. -/
def rankTolerant (events : List Event) (w : ℤ) (series : List PricePoint) :
    List ImpactResult × ℕ :=
  let results := events.filterMap (fun e => analyzeOpt e w series)
  (List.insertionSort impactBefore results, events.length - results.length)

/-- Calendar date as it appears after `parseISO` in the frontend: year, month and
day components (month 0-based as in JavaScript `Date.getMonth`, though nothing
below depends on the base). -/
structure CalDate where
  year : ℕ
  month : ℕ
  day : ℕ
deriving DecidableEq, Repr

/-- One entry of `chartData` in `PriceChartWithEvents.js`: a parsed date paired
with the price at the same index of the payload. -/
structure CalPricePoint where
  date : CalDate
  price : ℚ
deriving DecidableEq, Repr

/-- An event row as consumed by `PriceChartWithEvents.js`: a parsed date and a
title (the remaining fields are carried through unchanged by the component). -/
structure CalEvent where
  date : CalDate
  title : String
deriving DecidableEq, Repr

/-- A marker produced by `eventMarkers` in `PriceChartWithEvents.js`: the event
together with the chart point it was attached to. -/
structure EventMarker where
  event : CalEvent
  chartDate : CalDate
  chartPrice : ℚ
deriving DecidableEq, Repr

/-- Embeds the lookup inside `eventMarkers` of `PriceChartWithEvents.js`
(lines 27-41): `chartData.find` of the first point whose parsed date has the
same `getFullYear()` and `getMonth()` as the event's date. -/
def nearestPriceMatch (e : CalEvent) (chartData : List CalPricePoint) :
    Option CalPricePoint :=
  chartData.find? (fun d => d.date.year == e.date.year && d.date.month == e.date.month)

/-- Embeds `eventMarkers` of `PriceChartWithEvents.js`: each event is mapped to
a marker at the matched chart point when the month-level lookup succeeds, and the
unmatched events are dropped (`.filter(Boolean)`). -/
def eventMarkers (events : List CalEvent) (chartData : List CalPricePoint) :
    List EventMarker :=
  events.filterMap (fun e =>
    (nearestPriceMatch e chartData).map (fun p => ⟨e, p.date, p.price⟩))

/-- Embeds the average-volatility computation of the alternate Dashboard page
(`setAvgVolatility`): `vol.length ? vol.reduce((a, b) => a + b, 0) / vol.length : null`.
An empty array is falsy in JavaScript, so the division is guarded. -/
def avgVolatility (vol : List ℚ) : Option ℚ :=
  if vol.length = 0 then none
  else some (vol.foldl (· + ·) 0 / (vol.length : ℚ))

/-- Embeds `priceSeries` of `App.js` (lines 204-214): an array of
`min(dates.length, prices.length)` entries whose `i`-th element reads
`dates[index]` and `prices[index]`. JavaScript indexing that can yield
`undefined` is modelled by `List.get?`; the derived `dateLabel` field is a pure
formatting of the same date and is not modelled. -/
def priceSeriesOf (dates : List String) (prices : List ℚ) :
    List (Option String × Option ℚ) :=
  (List.range (min dates.length prices.length)).map
    (fun index => (dates[index]?, prices[index]?))

/-- Modelled from the spec (§3 ReturnPoint): the return fields derived from one
consecutive pair of prices. log_return[t] = ln(price[t]/price[t-1]) is the
transcendental `Real.log` of the stored `ratio` field; the real number itself is
written at the theorem level so that the data stays executable. The
rolling-volatility field is derived separately and is not touched by the claims
under verification. -/
structure ReturnPoint where
  simple_return : ℚ
  ratio : ℚ
deriving DecidableEq, Repr

/-- Modelled from the spec (§4.3 ReturnsEngine.computeReturns): the backend
ReturnsEngine is not under src/. simple_return[t] = (price[t] - price[t-1]) /
price[t-1]; the ratio field carries price[t]/price[t-1] whose `Real.log` is
log_return[t]; the first point carries no return and is omitted. -/
def computeReturns : List ℚ → List ReturnPoint
  | [] => []
  | [_] => []
  | p₀ :: p₁ :: rest =>
      ⟨(p₁ - p₀) / p₀, p₁ / p₀⟩ :: computeReturns (p₁ :: rest)

/-- Outcome of one request in `Promise.allSettled` as consumed by `fetchAllData`
in `App.js`: fulfilled with a possibly-null JSON value (`fetchJson` returns null
for an allowed 404 and a parsed body may itself be null), or rejected. -/
inductive Settled (α : Type) where
  | fulfilled (value : Option α)
  | rejected
deriving DecidableEq, Repr

/-- Whether a settled result has `status === 'rejected'`. -/
def Settled.isRejected {α : Type} : Settled α → Bool
  | .rejected => true
  | .fulfilled _ => false

/-- The prices payload of `App.js` with the fields of its literal fallback
`{ dates: [], prices: [], stats: {}, count: 0, date_range: {} }`; the two JSON
objects are modelled as association lists. -/
structure PricesPayload where
  dates : List String
  prices : List ℚ
  stats : List (String × ℚ)
  count : ℕ
  date_range : List (String × String)
deriving DecidableEq, Repr

/-- The literal prices fallback of `App.js`. -/
def emptyPrices : PricesPayload := ⟨[], [], [], 0, []⟩

/-- The events payload of `App.js` with the fields of its literal fallback
`{ events: [], type_distribution: {}, count: 0 }`; event rows are kept abstract. -/
structure EventsPayload (ε : Type) where
  events : List ε
  type_distribution : List (String × ℕ)
  count : ℕ
deriving DecidableEq, Repr

/-- The literal events fallback of `App.js`. -/
def emptyEvents {ε : Type} : EventsPayload ε := ⟨[], [], 0⟩

/-- The change-points payload: `cpResult.value?.change_points`. -/
structure CpPayload (χ : Type) where
  change_points : List χ
deriving DecidableEq, Repr

/-- The correlation payload: `corrResult.value?.correlations`. -/
structure CorrPayload (κ : Type) where
  correlations : List κ
deriving DecidableEq, Repr

/-- The `nextData` record built by `fetchAllData` in `App.js` (lines 130-145). -/
structure DashboardData (ε σ χ ν κ : Type) where
  prices : PricesPayload
  events : EventsPayload ε
  analysis : Option σ
  changePoints : List χ
  volatility : Option ν
  correlations : List κ
deriving DecidableEq, Repr

/-- Embeds the `nextData` construction of `fetchAllData` (`App.js` lines
130-145): prices and events fall back to their literal empty payloads when the
request rejected or returned a falsy value; summary and volatility keep a
fulfilled value (possibly null) and become null on rejection; change points and
correlations unwrap an optional field with `|| []`. -/
def computeNextData {ε σ χ ν κ : Type}
    (pr : Settled PricesPayload) (ev : Settled (EventsPayload ε)) (su : Settled σ)
    (cp : Settled (CpPayload χ)) (vo : Settled ν) (co : Settled (CorrPayload κ)) :
    DashboardData ε σ χ ν κ where
  prices := match pr with
    | .fulfilled (some v) => v
    | _ => emptyPrices
  events := match ev with
    | .fulfilled (some v) => v
    | _ => emptyEvents
  analysis := match su with
    | .fulfilled v => v
    | .rejected => none
  changePoints := match cp with
    | .fulfilled (some v) => v.change_points
    | _ => []
  volatility := match vo with
    | .fulfilled v => v
    | .rejected => none
  correlations := match co with
    | .fulfilled (some v) => v.correlations
    | _ => []

/-- Embeds the `errors` array of `fetchAllData` (`App.js` lines 147-153): one
label per rejected request, in the order of the requests. -/
def fetchErrors {ε σ χ ν κ : Type}
    (pr : Settled PricesPayload) (ev : Settled (EventsPayload ε)) (su : Settled σ)
    (cp : Settled (CpPayload χ)) (vo : Settled ν) (co : Settled (CorrPayload κ)) :
    List String :=
  (if pr.isRejected then ["price"] else [])
    ++ (if ev.isRejected then ["event"] else [])
    ++ (if su.isRejected then ["summary"] else [])
    ++ (if cp.isRejected then ["change point"] else [])
    ++ (if vo.isRejected then ["volatility"] else [])
    ++ (if co.isRejected then ["correlation"] else [])

/-- Embeds the error-banner decision of `fetchAllData` (`App.js` lines
155-158): the error state is set only when the critical subset of the errors
(price or event) is non-empty. -/
def computeError {ε σ χ ν κ : Type}
    (pr : Settled PricesPayload) (ev : Settled (EventsPayload ε)) (su : Settled σ)
    (cp : Settled (CpPayload χ)) (vo : Settled ν) (co : Settled (CorrPayload κ)) :
    Option String :=
  let critical := (fetchErrors pr ev su cp vo co).filter
    (fun item => item == "price" || item == "event")
  if critical.length > 0
  then some ("Partial data load: " ++ String.intercalate ", " critical ++ ".")
  else none

/-- Earliest date of a loaded series (0 for the empty series, never consulted
there). -/
def minDate : List PricePoint → ℤ
  | [] => 0
  | p :: ps => ps.foldl (fun m q => min m q.date) p.date

/-- Latest date of a loaded series (0 for the empty series, never consulted
there). -/
def maxDate : List PricePoint → ℤ
  | [] => 0
  | p :: ps => ps.foldl (fun m q => max m q.date) p.date

/-- Modelled from the spec (§4.1 TimeSeriesStore.slice): an endpoint falling
outside the data's bounds is clamped to the nearest valid bound rather than
failing. -/
def clampDate (ts : List PricePoint) (x : ℤ) : ℤ :=
  min (max x (minDate ts)) (maxDate ts)

/-- Modelled from the spec (§4.1 TimeSeriesStore.slice): the backend
TimeSeriesStore is not under src/. slice returns the points whose date lies in
[clamp(start), clamp(end)]. -/
def slice (ts : List PricePoint) (startD stopD : ℤ) : List PricePoint :=
  ts.filter (fun p => clampDate ts startD ≤ p.date ∧ p.date ≤ clampDate ts stopD)

/-- Modelled from the spec (§4.1 TimeSeriesStore.resample): the five supported
aggregation granularities. -/
inductive Granularity where
  | daily
  | weekly
  | monthly
  | quarterly
  | yearly
deriving DecidableEq, Repr

/-- Linearization of a calendar date used only to delimit week periods; the
exact week boundary is unspecified by the spec and irrelevant to the claims. -/
def ordinalOf (d : CalDate) : ℕ := d.year * 372 + d.month * 31 + d.day

/-- Modelled from the spec (§4.1 TimeSeriesStore.resample): the aggregation
period a date belongs to, for each granularity. -/
def periodKey : Granularity → CalDate → ℕ × ℕ × ℕ
  | .daily, d => (d.year, d.month, d.day)
  | .weekly, d => (ordinalOf d / 7, 0, 0)
  | .monthly, d => (d.year, d.month, 0)
  | .quarterly, d => (d.year, d.month / 3, 0)
  | .yearly, d => (d.year, 0, 0)

/-- Modelled from the spec (§4.1 TimeSeriesStore.resample): the backend
TimeSeriesStore is not under src/. resample keeps the last observation of each
run of consecutive points sharing a period, dropping a point exactly when its
immediate successor is in the same period. -/
def resample (g : Granularity) : List CalPricePoint → List CalPricePoint
  | [] => []
  | [p] => [p]
  | p :: q :: t =>
      if periodKey g p.date = periodKey g q.date
      then resample g (q :: t)
      else p :: resample g (q :: t)

/-- The maximal runs of consecutive points sharing a period, used to state that
resample takes the last observation in each period. -/
def groupRuns (g : Granularity) : List CalPricePoint → List (List CalPricePoint)
  | [] => []
  | [p] => [[p]]
  | p :: q :: t =>
      if periodKey g p.date = periodKey g q.date
      then match groupRuns g (q :: t) with
        | [] => [[p]]
        | r :: rs => (p :: r) :: rs
      else [p] :: groupRuns g (q :: t)

/-- The five-point literal series [100,102,104,98,96] from the spec's §8 test
vector, with dates 0..4 so that the event sits at index 2. -/
def literalSeries : List PricePoint :=
  [⟨0, 100⟩, ⟨1, 102⟩, ⟨2, 104⟩, ⟨3, 98⟩, ⟨4, 96⟩]

/-- The event at index 2 of the literal series. -/
def literalEvent : Event := ⟨2, "literal"⟩

end BrentOil

namespace BrentOil

/-- C1: for every event and window size, `analyze` returns an ImpactResult whose
pre_avg is the mean price over [event.date - windowDays, event.date), whose
post_avg is the mean price over (event.date, event.date + windowDays], and whose
percent_change equals (post_avg - pre_avg)/pre_avg * 100; on the literal series
[100,102,104,98,96] with the event at index 2 and windowDays = 2 this yields
pre_avg = 101, post_avg = 97, percent_change = (97/101 - 1) * 100. -/
theorem analyze_spec :
    (∀ (e : Event) (w : ℤ) (series : List PricePoint),
      (analyze e w series).pre_avg
          = mean ((series.filter
              (fun p => e.date - w ≤ p.date ∧ p.date < e.date)).map PricePoint.price)
        ∧ (analyze e w series).post_avg
          = mean ((series.filter
              (fun p => e.date < p.date ∧ p.date ≤ e.date + w)).map PricePoint.price)
        ∧ (analyze e w series).percent_change
          = ((analyze e w series).post_avg - (analyze e w series).pre_avg)
              / (analyze e w series).pre_avg * 100)
    ∧ (analyze literalEvent 2 literalSeries).pre_avg = 101
    ∧ (analyze literalEvent 2 literalSeries).post_avg = 97
    ∧ (analyze literalEvent 2 literalSeries).percent_change = (97 / 101 - 1) * 100 := by
  refine ⟨fun e w series => ⟨rfl, rfl, rfl⟩, ?_, ?_, ?_⟩ <;>
    norm_num [analyze, mean, preWindow, postWindow, literalSeries, literalEvent,
      List.filter]

/-- C2: `nearestPriceMatch` resolves an event's date to an available chart point
in the same calendar month (year and month match), returns none exactly when no
chart point lies in that month, and an event in the list is attached to a marker
if and only if some chart point shares its year and month. -/
theorem nearestPriceMatch_spec (e : CalEvent) (chartData : List CalPricePoint) :
    ((nearestPriceMatch e chartData).isSome
        ↔ ∃ p ∈ chartData, p.date.year = e.date.year ∧ p.date.month = e.date.month)
    ∧ (∀ p, nearestPriceMatch e chartData = some p
        → p ∈ chartData ∧ p.date.year = e.date.year ∧ p.date.month = e.date.month)
    ∧ (∀ events : List CalEvent, e ∈ events
        → ((∃ m ∈ eventMarkers events chartData, m.event = e)
            ↔ ∃ p ∈ chartData, p.date.year = e.date.year ∧ p.date.month = e.date.month)) := by
  refine ⟨?_, ?_, ?_⟩
  · simp [nearestPriceMatch, List.find?_isSome]
  · intro p hp
    refine ⟨List.mem_of_find?_eq_some hp, ?_⟩
    have := List.find?_some hp
    simpa using this
  · intro events he
    constructor
    · rintro ⟨m, hm, hme⟩
      rcases List.mem_filterMap.1 hm with ⟨a, _, hfa⟩
      rcases Option.map_eq_some'.1 hfa with ⟨p, hfind, hmk⟩
      have hae : a = e := by
        have : m.event = a := by rw [← hmk]
        rw [← hme, this]
      subst hae
      have hprop := List.find?_some hfind
      refine ⟨p, List.mem_of_find?_eq_some hfind, ?_⟩
      simpa [nearestPriceMatch] using hprop
    · rintro ⟨p, hp, hy, hm⟩
      have hsome : (nearestPriceMatch e chartData).isSome := by
        simp only [nearestPriceMatch, List.find?_isSome]
        exact ⟨p, hp, by simp [hy, hm]⟩
      rcases Option.isSome_iff_exists.1 hsome with ⟨q, hq⟩
      exact ⟨⟨e, q.date, q.price⟩,
        List.mem_filterMap.2 ⟨e, he, by simp [hq]⟩, rfl⟩

/-- Witness for C2: on a one-event, one-point instance with matching month, the
event is attached and the lookup returns the point. -/
theorem nearestPriceMatch_spec_witness :
    (nearestPriceMatch ⟨⟨2020, 4, 15⟩, "w"⟩ [⟨⟨2020, 4, 1⟩, 50⟩] = some ⟨⟨2020, 4, 1⟩, 50⟩
      → (⟨⟨2020, 4, 1⟩, 50⟩ : CalPricePoint) ∈ [(⟨⟨2020, 4, 1⟩, 50⟩ : CalPricePoint)]
        ∧ (2020 : ℕ) = 2020 ∧ (4 : ℕ) = 4)
    ∧ ((⟨⟨2020, 4, 15⟩, "w"⟩ : CalEvent) ∈ [(⟨⟨2020, 4, 15⟩, "w"⟩ : CalEvent)]
      → ((∃ m ∈ eventMarkers [⟨⟨2020, 4, 15⟩, "w"⟩] [⟨⟨2020, 4, 1⟩, 50⟩], m.event = ⟨⟨2020, 4, 15⟩, "w"⟩)
          ↔ ∃ p ∈ [(⟨⟨2020, 4, 1⟩, 50⟩ : CalPricePoint)],
              p.date.year = 2020 ∧ p.date.month = 4)) :=
  ⟨fun h => (nearestPriceMatch_spec ⟨⟨2020, 4, 15⟩, "w"⟩ [⟨⟨2020, 4, 1⟩, 50⟩]).2.1 _ h,
   fun h => (nearestPriceMatch_spec ⟨⟨2020, 4, 15⟩, "w"⟩ [⟨⟨2020, 4, 1⟩, 50⟩]).2.2 _ h⟩

/-- One return step: the length of the derived sequence is one less than the
length of the price series (zero for the empty series). -/
theorem computeReturns_length :
    ∀ series : List ℚ, (computeReturns series).length = series.length - 1
  | [] => rfl
  | [_] => rfl
  | p₀ :: p₁ :: rest => by
    have ih := computeReturns_length (p₁ :: rest)
    simp only [computeReturns, List.length_cons] at ih ⊢
    omega

/-- Sign agreement of one return pair: with positive prices, the log return and
the simple return are simultaneously positive, negative, or zero. -/
theorem returnPair_sign (p₀ p₁ : ℚ) (h0 : 0 < p₀) (h1 : 0 < p₁) :
    (0 < Real.log (((p₁ / p₀ : ℚ) : ℝ)) ↔ 0 < (p₁ - p₀) / p₀)
    ∧ (Real.log (((p₁ / p₀ : ℚ) : ℝ)) < 0 ↔ (p₁ - p₀) / p₀ < 0)
    ∧ (Real.log (((p₁ / p₀ : ℚ) : ℝ)) = 0 ↔ (p₁ - p₀) / p₀ = 0) := by
  have hcast : (((p₁ / p₀ : ℚ) : ℝ)) = (p₁ : ℝ) / (p₀ : ℝ) := by push_cast; ring
  rw [hcast]
  have hb0 : (0 : ℝ) < (p₀ : ℝ) := by exact_mod_cast h0
  have hb1 : (0 : ℝ) < (p₁ : ℝ) := by exact_mod_cast h1
  have hx : (0 : ℝ) < (p₁ : ℝ) / (p₀ : ℝ) := div_pos hb1 hb0
  have hsimple_pos : 0 < (p₁ - p₀) / p₀ ↔ p₀ < p₁ := by
    rw [div_pos_iff]
    constructor
    · rintro (⟨h, _⟩ | ⟨_, h⟩)
      · linarith
      · linarith
    · intro h
      exact Or.inl ⟨by linarith, h0⟩
  have hsimple_neg : (p₁ - p₀) / p₀ < 0 ↔ p₁ < p₀ := by
    rw [div_neg_iff]
    constructor
    · rintro (⟨_, h⟩ | ⟨h, _⟩)
      · linarith
      · linarith
    · intro h
      exact Or.inr ⟨by linarith, h0⟩
  have hsimple_zero : (p₁ - p₀) / p₀ = 0 ↔ p₁ = p₀ := by
    rw [div_eq_zero_iff]
    constructor
    · rintro (h | h)
      · linarith
      · exact absurd h (ne_of_gt h0)
    · intro h
      exact Or.inl (by linarith)
  refine ⟨?_, ?_, ?_⟩
  · rw [Real.log_pos_iff hx, one_lt_div hb0, hsimple_pos]
    exact_mod_cast Iff.rfl
  · rw [Real.log_neg_iff hx, div_lt_one hb0, hsimple_neg]
    exact_mod_cast Iff.rfl
  · rw [Real.log_eq_zero, hsimple_zero]
    constructor
    · rintro (h | h | h)
      · exact absurd h (ne_of_gt hx)
      · have := (div_eq_one_iff_eq (ne_of_gt hb0)).1 h
        exact_mod_cast this
      · linarith
    · intro h
      refine Or.inr (Or.inl ?_)
      rw [div_eq_one_iff_eq (ne_of_gt hb0)]
      exact_mod_cast h

/-- C4: on a price series of length n with all prices positive, computeReturns
yields exactly n-1 ReturnPoints (the first point is omitted), each point's
simple and log returns follow the spec formulas by construction, and the log
return and the simple return of every point have the same sign. -/
theorem computeReturns_spec :
    ∀ series : List ℚ, (∀ p ∈ series, 0 < p) →
      (computeReturns series).length = series.length - 1
      ∧ ∀ rp ∈ computeReturns series,
          (0 < Real.log ((rp.ratio : ℝ)) ↔ 0 < rp.simple_return)
          ∧ (Real.log ((rp.ratio : ℝ)) < 0 ↔ rp.simple_return < 0)
          ∧ (Real.log ((rp.ratio : ℝ)) = 0 ↔ rp.simple_return = 0)
  | [] => fun _ => ⟨rfl, by intro rp h; simp [computeReturns] at h⟩
  | [p] => fun _ => ⟨rfl, by intro rp h; simp [computeReturns] at h⟩
  | p₀ :: p₁ :: rest => fun hpos => by
    refine ⟨computeReturns_length _, ?_⟩
    intro rp hrp
    rw [computeReturns, List.mem_cons] at hrp
    rcases hrp with hrp | hrp
    · subst hrp
      exact returnPair_sign p₀ p₁ (hpos p₀ (by simp)) (hpos p₁ (by simp))
    · exact (computeReturns_spec (p₁ :: rest)
        (fun q hq => hpos q (List.mem_cons_of_mem _ hq))).2 rp hrp

/-- Witness for C4: the positive two-price series [1, 2] yields exactly one
return point whose log and simple returns agree in sign. -/
theorem computeReturns_spec_witness :
    (∀ p ∈ [(1 : ℚ), 2], 0 < p)
    ∧ ((computeReturns [(1 : ℚ), 2]).length = ([(1 : ℚ), 2].length - 1)
      ∧ ∀ rp ∈ computeReturns [(1 : ℚ), 2],
          (0 < Real.log ((rp.ratio : ℝ)) ↔ 0 < rp.simple_return)
          ∧ (Real.log ((rp.ratio : ℝ)) < 0 ↔ rp.simple_return < 0)
          ∧ (Real.log ((rp.ratio : ℝ)) = 0 ↔ rp.simple_return = 0)) :=
  ⟨by decide, computeReturns_spec [(1 : ℚ), 2] (by decide)⟩

/-- C9: the dashboard's average-volatility computation is total — an empty
volatility array yields null (none), and a non-empty array yields sum/length. -/
theorem avgVolatility_total (vol : List ℚ) :
    (avgVolatility [] = none)
    ∧ (vol ≠ [] → avgVolatility vol = some (vol.sum / (vol.length : ℚ))) := by
  constructor
  · rfl
  · intro hne
    have hlen : vol.length ≠ 0 := by
      simpa [List.length_eq_zero] using hne
    have hfold : vol.foldl (· + ·) 0 = vol.sum := List.sum_eq_foldl.symm
    simp [avgVolatility, hlen, hfold]

/-- Witness for C9: the two-element array [1, 2] is non-empty and averages to
the sum divided by the length. -/
theorem avgVolatility_total_witness :
    ([(1 : ℚ), 2] ≠ [])
    ∧ avgVolatility [(1 : ℚ), 2] = some (([(1 : ℚ), 2].sum) / (([(1 : ℚ), 2].length : ℚ))) :=
  ⟨by simp, (avgVolatility_total [(1 : ℚ), 2]).2 (by simp)⟩

/-- C10: the chart series built by the dashboard has length
min(|dates|, |prices|), its i-th entry pairs dates[i] with prices[i], and every
entry holds a defined date and a defined price (no out-of-bounds read). -/
theorem priceSeries_safe (dates : List String) (prices : List ℚ) :
    ((priceSeriesOf dates prices).length = min dates.length prices.length)
    ∧ (∀ i, i < min dates.length prices.length
        → (priceSeriesOf dates prices)[i]? = some (dates[i]?, prices[i]?))
    ∧ (∀ entry ∈ priceSeriesOf dates prices, entry.1.isSome ∧ entry.2.isSome) := by
  refine ⟨by simp [priceSeriesOf], ?_, ?_⟩
  · intro i hi
    simp [priceSeriesOf, List.getElem?_map, List.getElem?_range hi]
  · intro entry hentry
    rcases List.mem_map.1 hentry with ⟨i, hi, rfl⟩
    have hilt : i < min dates.length prices.length := List.mem_range.1 hi
    constructor
    · have : i < dates.length := lt_of_lt_of_le hilt (min_le_left _ _)
      simp [List.getElem?_eq_getElem this]
    · have : i < prices.length := lt_of_lt_of_le hilt (min_le_right _ _)
      simp [List.getElem?_eq_getElem this]

/-- Witness for C10: on dates ["a", "b"] and prices [5], the series has one
entry, and entry 0 pairs the defined date "a" with the defined price 5. -/
theorem priceSeries_safe_witness :
    ((0 : ℕ) < min (["a", "b"] : List String).length ([(5 : ℚ)] : List ℚ).length
      ∧ (priceSeriesOf ["a", "b"] [(5 : ℚ)])[0]?
          = some ((["a", "b"] : List String)[0]?, ([(5 : ℚ)] : List ℚ)[0]?))
    ∧ ((some "a", some (5 : ℚ)) ∈ priceSeriesOf ["a", "b"] [(5 : ℚ)]
      ∧ (some "a", some (5 : ℚ)).1.isSome ∧ (some "a", some (5 : ℚ)).2.isSome) :=
  ⟨⟨by simp, (priceSeries_safe ["a", "b"] [(5 : ℚ)]).2.1 0 (by simp)⟩,
   ⟨by decide,
    (priceSeries_safe ["a", "b"] [(5 : ℚ)]).2.2 (some "a", some (5 : ℚ))
      (by decide)⟩⟩

/-- Folding min over a list never exceeds the initial accumulator. -/
theorem foldl_min_le_init :
    ∀ (l : List PricePoint) (a : ℤ), l.foldl (fun m q => min m q.date) a ≤ a
  | [], _ => le_refl _
  | q :: t, a => le_trans (foldl_min_le_init t (min a q.date)) (min_le_left _ _)

/-- Folding min over a list bounds every member's date from below. -/
theorem foldl_min_le_mem :
    ∀ (l : List PricePoint) (a : ℤ) (q : PricePoint), q ∈ l
      → l.foldl (fun m q => min m q.date) a ≤ q.date
  | [], _, _, h => absurd h (List.not_mem_nil _)
  | r :: t, a, q, h => by
    rcases List.mem_cons.1 h with h | h
    · subst h
      exact le_trans (foldl_min_le_init t (min a q.date)) (min_le_right _ _)
    · exact foldl_min_le_mem t (min a r.date) q h

/-- Folding max over a list is at least the initial accumulator. -/
theorem init_le_foldl_max :
    ∀ (l : List PricePoint) (a : ℤ), a ≤ l.foldl (fun m q => max m q.date) a
  | [], _ => le_refl _
  | q :: t, a => le_trans (le_max_left _ _) (init_le_foldl_max t (max a q.date))

/-- Folding max over a list bounds every member's date from above. -/
theorem mem_le_foldl_max :
    ∀ (l : List PricePoint) (a : ℤ) (q : PricePoint), q ∈ l
      → q.date ≤ l.foldl (fun m q => max m q.date) a
  | [], _, _, h => absurd h (List.not_mem_nil _)
  | r :: t, a, q, h => by
    rcases List.mem_cons.1 h with h | h
    · subst h
      exact le_trans (le_max_right _ _) (init_le_foldl_max t (max a q.date))
    · exact mem_le_foldl_max t (max a r.date) q h

/-- Every date of a series lies between its minDate and its maxDate. -/
theorem date_mem_bounds (ts : List PricePoint) (p : PricePoint) (hp : p ∈ ts) :
    minDate ts ≤ p.date ∧ p.date ≤ maxDate ts := by
  match ts, hp with
  | r :: t, hp =>
    rcases List.mem_cons.1 hp with h | h
    · subst h
      exact ⟨foldl_min_le_init t p.date, init_le_foldl_max t p.date⟩
    · exact ⟨foldl_min_le_mem t r.date p h, mem_le_foldl_max t r.date p h⟩

/-- For a non-empty series the minimum date does not exceed the maximum date. -/
theorem minDate_le_maxDate (ts : List PricePoint) (h : ts ≠ []) :
    minDate ts ≤ maxDate ts := by
  match ts, h with
  | r :: t, _ =>
    have hb := date_mem_bounds (r :: t) r (by simp)
    exact le_trans hb.1 hb.2

/-- C5: for every sorted series and every date range, slice returns exactly the
points whose date lies in [clamp(start), clamp(end)], the returned points have
strictly increasing dates, and slicing [minDate, maxDate] reproduces the full
series. -/
theorem slice_spec (ts : List PricePoint) (startD stopD : ℤ)
    (hsort : ts.Pairwise (fun p q => p.date < q.date)) :
    (∀ p, p ∈ slice ts startD stopD
        ↔ p ∈ ts ∧ clampDate ts startD ≤ p.date ∧ p.date ≤ clampDate ts stopD)
    ∧ (slice ts startD stopD).Pairwise (fun p q => p.date < q.date)
    ∧ slice ts (minDate ts) (maxDate ts) = ts := by
  refine ⟨?_, ?_, ?_⟩
  · intro p
    simp [slice, List.mem_filter]
  · exact hsort.filter _
  · rcases eq_or_ne ts [] with h | h
    · subst h
      rfl
    · have hmm := minDate_le_maxDate ts h
      have hstart : clampDate ts (minDate ts) = minDate ts := by
        simp [clampDate, hmm]
      have hstop : clampDate ts (maxDate ts) = maxDate ts := by
        simp [clampDate, hmm, max_eq_left hmm]
      refine List.filter_eq_self.2 ?_
      intro p hp
      have hb := date_mem_bounds ts p hp
      simp [hstart, hstop, hb.1, hb.2]

/-- Witness for C5: the sorted two-point series [(0, 1), (1, 2)] sliced over its
full bounds reproduces itself, membership matches the clamped range, and the
output is sorted. -/
theorem slice_spec_witness :
    (([⟨0, 1⟩, ⟨1, 2⟩] : List PricePoint).Pairwise (fun p q => p.date < q.date))
    ∧ ((∀ p, p ∈ slice [⟨0, 1⟩, ⟨1, 2⟩] 0 5
        ↔ p ∈ ([⟨0, 1⟩, ⟨1, 2⟩] : List PricePoint)
          ∧ clampDate [⟨0, 1⟩, ⟨1, 2⟩] 0 ≤ p.date
          ∧ p.date ≤ clampDate [⟨0, 1⟩, ⟨1, 2⟩] 5)
      ∧ (slice [⟨0, 1⟩, ⟨1, 2⟩] 0 5).Pairwise (fun p q => p.date < q.date)
      ∧ slice [⟨0, 1⟩, ⟨1, 2⟩] (minDate [⟨0, 1⟩, ⟨1, 2⟩]) (maxDate [⟨0, 1⟩, ⟨1, 2⟩])
          = [⟨0, 1⟩, ⟨1, 2⟩]) :=
  ⟨by decide, slice_spec [⟨0, 1⟩, ⟨1, 2⟩] 0 5 (by decide)⟩

/-- Grouping a non-empty series yields a first run starting with the first
point. -/
theorem groupRuns_cons (g : Granularity) :
    ∀ (a : CalPricePoint) (l : List CalPricePoint),
      ∃ r rs, groupRuns g (a :: l) = (a :: r) :: rs
  | _, [] => ⟨[], [], rfl⟩
  | a, b :: t => by
    rcases groupRuns_cons g b t with ⟨r, rs, h⟩
    by_cases hk : periodKey g a.date = periodKey g b.date
    · exact ⟨b :: r, rs, by simp [groupRuns, hk, h]⟩
    · exact ⟨[], groupRuns g (b :: t), by simp [groupRuns, hk]⟩

/-- The period runs partition the series: concatenating them restores it. -/
theorem groupRuns_join (g : Granularity) :
    ∀ l : List CalPricePoint, (groupRuns g l).flatten = l
  | [] => rfl
  | [_] => rfl
  | p :: q :: t => by
    have ih := groupRuns_join g (q :: t)
    rcases groupRuns_cons g q t with ⟨r, rs, h⟩
    by_cases hk : periodKey g p.date = periodKey g q.date
    · rw [h] at ih
      simp only [groupRuns, hk, if_true, h, List.flatten] at ih ⊢
      simpa using ih
    · simp only [groupRuns, hk, if_false, List.flatten]
      simpa using ih

/-- resample is exactly the last observation of each period run. -/
theorem resample_eq_lastOfRuns (g : Granularity) :
    ∀ l : List CalPricePoint,
      resample g l = (groupRuns g l).filterMap List.getLast?
  | [] => rfl
  | [_] => rfl
  | p :: q :: t => by
    have ih := resample_eq_lastOfRuns g (q :: t)
    rcases groupRuns_cons g q t with ⟨r, rs, h⟩
    by_cases hk : periodKey g p.date = periodKey g q.date
    · rw [h] at ih
      simp only [resample, groupRuns, hk, if_true, h, List.filterMap_cons] at ih ⊢
      simpa [List.getLast?_cons_cons] using ih
    · simp only [resample, groupRuns, hk, if_false, List.filterMap_cons]
      simpa using ih

/-- Daily resampling of a series with pairwise distinct dates keeps every
point. -/
theorem resample_daily_eq :
    ∀ ts : List CalPricePoint, (ts.map (fun p => p.date)).Nodup
      → resample Granularity.daily ts = ts
  | [] => fun _ => rfl
  | [_] => fun _ => rfl
  | p :: q :: t => fun hnodup => by
    have h1 : (p.date :: List.map (fun p => p.date) (q :: t)).Nodup := by
      simpa only [List.map_cons] using hnodup
    have hcons := List.nodup_cons.1 h1
    have hpq : p.date ≠ q.date := by
      intro h
      exact hcons.1 (by simp [h])
    have hk : periodKey Granularity.daily p.date ≠ periodKey Granularity.daily q.date := by
      intro h
      apply hpq
      have h' : p.date.year = q.date.year ∧ p.date.month = q.date.month
          ∧ p.date.day = q.date.day := by
        simpa [periodKey, Prod.ext_iff] using h
      have e1 : p.date = ⟨p.date.year, p.date.month, p.date.day⟩ := rfl
      have e2 : q.date = ⟨q.date.year, q.date.month, q.date.day⟩ := rfl
      rw [e1, e2, h'.1, h'.2.1, h'.2.2]
    have ih := resample_daily_eq (q :: t) hcons.2
    simp [resample, hk, ih]

/-- C6: resample with granularity daily on a series that is already daily (no
two points share a date) is the identity transform, and for every granularity
resample aggregates by taking the last observation in each period: it equals
the per-run last elements of the period runs, which partition the series. -/
theorem resample_spec (ts : List CalPricePoint)
    (hdaily : (ts.map (fun p => p.date)).Nodup) :
    resample Granularity.daily ts = ts
    ∧ ∀ (g : Granularity) (l : List CalPricePoint),
        resample g l = (groupRuns g l).filterMap List.getLast?
        ∧ (groupRuns g l).flatten = l :=
  ⟨resample_daily_eq ts hdaily,
   fun g l => ⟨resample_eq_lastOfRuns g l, groupRuns_join g l⟩⟩

/-- Witness for C6: a concrete two-point daily series with distinct dates is
fixed by daily resampling. -/
theorem resample_spec_witness :
    (([⟨⟨2020, 1, 1⟩, 10⟩, ⟨⟨2020, 1, 2⟩, 11⟩] : List CalPricePoint).map
        (fun p => p.date)).Nodup
    ∧ (resample Granularity.daily [⟨⟨2020, 1, 1⟩, 10⟩, ⟨⟨2020, 1, 2⟩, 11⟩]
          = [⟨⟨2020, 1, 1⟩, 10⟩, ⟨⟨2020, 1, 2⟩, 11⟩]
      ∧ ∀ (g : Granularity) (l : List CalPricePoint),
          resample g l = (groupRuns g l).filterMap List.getLast?
          ∧ (groupRuns g l).flatten = l) :=
  ⟨by decide,
   resample_spec [⟨⟨2020, 1, 1⟩, 10⟩, ⟨⟨2020, 1, 2⟩, 11⟩] (by decide)⟩

/-- Two sorted permutations of each other are equal as soon as the order is
antisymmetric on the elements actually present. -/
theorem eq_of_perm_of_sorted_of_antisymmOn {α : Type} {r : α → α → Prop} :
    ∀ {l₁ l₂ : List α}, l₁.Perm l₂ → l₁.Sorted r → l₂.Sorted r
      → (∀ a ∈ l₁, ∀ b ∈ l₁, r a b → r b a → a = b) → l₁ = l₂ := by
  intro l₁
  induction l₁ with
  | nil =>
    intro l₂ hp _ _ _
    exact hp.nil_eq
  | cons a t ih =>
    intro l₂ hp hs₁ hs₂ hanti
    cases l₂ with
    | nil => exact absurd hp.symm.nil_eq (by simp)
    | cons b t₂ =>
      have hab : a = b := by
        by_cases h : a = b
        · exact h
        · have ha2 : a ∈ b :: t₂ := hp.mem_iff.1 (by simp)
          have hb1 : b ∈ a :: t := hp.symm.mem_iff.1 (by simp)
          have ha : a ∈ t₂ := by
            rcases List.mem_cons.1 ha2 with h' | h'
            · exact absurd h' h
            · exact h'
          have hb : b ∈ t := by
            rcases List.mem_cons.1 hb1 with h' | h'
            · exact absurd h'.symm h
            · exact h'
          have hrba : r b a := (List.sorted_cons.1 hs₂).1 a ha
          have hrab : r a b := (List.sorted_cons.1 hs₁).1 b hb
          exact hanti a (by simp) b (by simp [hb]) hrab hrba
      subst hab
      have hp' : t.Perm t₂ := (List.perm_cons a).1 hp
      have ht : t = t₂ :=
        ih hp' (List.sorted_cons.1 hs₁).2 (List.sorted_cons.1 hs₂).2
          (fun x hx y hy hxy hyx =>
            hanti x (by simp [hx]) y (by simp [hy]) hxy hyx)
      rw [ht]

/-- C3 (amended): rank returns the per-event ImpactResults sorted by descending
absolute percent change with ties broken by ascending date, and — provided the
events carry pairwise distinct dates — the output is invariant under any
permutation of the input event order. Without distinct dates two same-date
events tie on both sort keys and keep their input order. -/
theorem rank_spec (ev₁ ev₂ : List Event) (w : ℤ) (series : List PricePoint)
    (hperm : ev₁.Perm ev₂) (hdates : (ev₁.map Event.date).Nodup) :
    rank ev₁ w series = rank ev₂ w series
    ∧ (rank ev₁ w series).Sorted impactBefore
    ∧ (rank ev₁ w series).Perm (ev₁.map (fun e => analyze e w series)) := by
  refine ⟨?_, List.sorted_insertionSort impactBefore _,
    List.perm_insertionSort impactBefore _⟩
  have hinj := List.inj_on_of_nodup_map hdates
  have hmperm : (ev₁.map (fun e => analyze e w series)).Perm
      (ev₂.map (fun e => analyze e w series)) := hperm.map _
  have hp : (rank ev₁ w series).Perm (rank ev₂ w series) :=
    (List.perm_insertionSort impactBefore _).trans
      (hmperm.trans (List.perm_insertionSort impactBefore _).symm)
  refine eq_of_perm_of_sorted_of_antisymmOn hp
    (List.sorted_insertionSort impactBefore _)
    (List.sorted_insertionSort impactBefore _) ?_
  intro x hx y hy hxy hyx
  have hx' : x ∈ ev₁.map (fun e => analyze e w series) := by
    simpa [rank] using hx
  have hy' : y ∈ ev₁.map (fun e => analyze e w series) := by
    simpa [rank] using hy
  rcases List.mem_map.1 hx' with ⟨ex, hex, rfl⟩
  rcases List.mem_map.1 hy' with ⟨ey, hey, rfl⟩
  have hdate : ex.date = ey.date := by
    have hxe : (analyze ex w series).event = ex := rfl
    have hye : (analyze ey w series).event = ey := rfl
    rcases hxy with h | ⟨_, h2⟩ <;> rcases hyx with h' | ⟨_, h2'⟩
    · exact absurd h (lt_asymm h')
    · exact absurd h (by rcases lt_iff_le_and_ne.1 h with ⟨hle, hne⟩; simp_all)
    · exact absurd h' (by rcases lt_iff_le_and_ne.1 h' with ⟨hle, hne⟩; simp_all)
    · exact le_antisymm (by simpa [hxe, hye] using h2) (by simpa [hxe, hye] using h2')
  rw [hinj hex hey hdate]

/-- C3 counterexample: with two distinct events on the same date, rank is not
invariant under swapping the input order — both results tie on magnitude and
date, so the stable sort keeps the input order. -/
theorem rank_perm_counterexample :
    ¬ (∀ (ev₁ ev₂ : List Event) (w : ℤ) (series : List PricePoint),
        ev₁.Perm ev₂ → rank ev₁ w series = rank ev₂ w series) := by
  intro hall
  have h := hall [⟨2, "A"⟩, ⟨2, "B"⟩] [⟨2, "B"⟩, ⟨2, "A"⟩] 2 literalSeries
    (List.Perm.swap _ _ _)
  have hA : rank [⟨2, "A"⟩, ⟨2, "B"⟩] 2 literalSeries
      = [analyze ⟨2, "A"⟩ 2 literalSeries, analyze ⟨2, "B"⟩ 2 literalSeries] := by
    have htie : impactBefore (analyze ⟨2, "A"⟩ 2 literalSeries)
        (analyze ⟨2, "B"⟩ 2 literalSeries) :=
      Or.inr ⟨rfl, le_refl _⟩
    simp [rank, List.insertionSort, List.orderedInsert, htie]
  have hB : rank [⟨2, "B"⟩, ⟨2, "A"⟩] 2 literalSeries
      = [analyze ⟨2, "B"⟩ 2 literalSeries, analyze ⟨2, "A"⟩ 2 literalSeries] := by
    have htie : impactBefore (analyze ⟨2, "B"⟩ 2 literalSeries)
        (analyze ⟨2, "A"⟩ 2 literalSeries) :=
      Or.inr ⟨rfl, le_refl _⟩
    simp [rank, List.insertionSort, List.orderedInsert, htie]
  rw [hA, hB] at h
  have hhead := List.head_eq_of_cons_eq h
  have : "A" = "B" := congrArg (fun r => r.event.title) hhead
  simp at this

/-- Witness for C3: two events on distinct dates, listed in both orders, give
the same sorted ranked table. -/
theorem rank_spec_witness :
    (([⟨0, "A"⟩, ⟨4, "B"⟩] : List Event).Perm [⟨4, "B"⟩, ⟨0, "A"⟩]
      ∧ (([⟨0, "A"⟩, ⟨4, "B"⟩] : List Event).map Event.date).Nodup)
    ∧ (rank [⟨0, "A"⟩, ⟨4, "B"⟩] 2 literalSeries
          = rank [⟨4, "B"⟩, ⟨0, "A"⟩] 2 literalSeries
      ∧ (rank [⟨0, "A"⟩, ⟨4, "B"⟩] 2 literalSeries).Sorted impactBefore
      ∧ (rank [⟨0, "A"⟩, ⟨4, "B"⟩] 2 literalSeries).Perm
          (([⟨0, "A"⟩, ⟨4, "B"⟩] : List Event).map
            (fun e => analyze e 2 literalSeries))) :=
  ⟨⟨List.Perm.swap _ _ _, by decide⟩,
   rank_spec [⟨0, "A"⟩, ⟨4, "B"⟩] [⟨4, "B"⟩, ⟨0, "A"⟩] 2 literalSeries
     (List.Perm.swap _ _ _) (by decide)⟩

/-- Splitting a traversal by success: the successes and the failures of an
optional-valued map together account for every element. -/
theorem length_filterMap_add_isNone {α β : Type} (f : α → Option β) :
    ∀ l : List α,
      (l.filterMap f).length + (l.filter (fun a => (f a).isNone)).length = l.length
  | [] => rfl
  | a :: t => by
    have ih := length_filterMap_add_isNone f t
    cases hfa : f a <;>
      simp [List.filterMap_cons, hfa, List.filter_cons] <;> omega

/-- The successes of an optional-valued map are as many as the elements on
which it succeeds. -/
theorem length_filterMap_eq_isSome {α β : Type} (f : α → Option β) :
    ∀ l : List α,
      (l.filterMap f).length = (l.filter (fun a => (f a).isSome)).length
  | [] => rfl
  | a :: t => by
    have ih := length_filterMap_eq_isSome f t
    cases hfa : f a <;>
      simp [List.filterMap_cons, hfa, List.filter_cons, ih]

/-- C7: a failing event analysis never aborts the aggregation — every event
whose analysis succeeds has its ImpactResult in the ranked table, the reported
omission count is exactly the number of failing events, and the table holds
exactly the successful analyses. -/
theorem rankTolerant_spec (events : List Event) (w : ℤ) (series : List PricePoint) :
    (∀ e ∈ events, ∀ r, analyzeOpt e w series = some r
        → r ∈ (rankTolerant events w series).1)
    ∧ (rankTolerant events w series).2
        = (events.filter (fun e => (analyzeOpt e w series).isNone)).length
    ∧ (rankTolerant events w series).1.length
        = (events.filter (fun e => (analyzeOpt e w series).isSome)).length := by
  refine ⟨?_, ?_, ?_⟩
  · intro e he r hr
    have hmem : r ∈ events.filterMap (fun e => analyzeOpt e w series) :=
      List.mem_filterMap.2 ⟨e, he, hr⟩
    simpa [rankTolerant] using hmem
  · have h := length_filterMap_add_isNone (fun e => analyzeOpt e w series) events
    simp only [rankTolerant]
    omega
  · calc (rankTolerant events w series).1.length
        = (events.filterMap (fun e => analyzeOpt e w series)).length :=
          (List.perm_insertionSort impactBefore _).length_eq
      _ = (events.filter (fun e => (analyzeOpt e w series).isSome)).length :=
          length_filterMap_eq_isSome _ events

/-- Witness for C7: with one analyzable event and one event far outside the
series, the successful event's result is in the ranked table. -/
theorem rankTolerant_spec_witness :
    ((literalEvent ∈ [literalEvent, ⟨100, "far"⟩]
      ∧ analyzeOpt literalEvent 2 literalSeries
          = some (analyze literalEvent 2 literalSeries))
    ∧ analyze literalEvent 2 literalSeries
        ∈ (rankTolerant [literalEvent, ⟨100, "far"⟩] 2 literalSeries).1) := by
  have hsome : analyzeOpt literalEvent 2 literalSeries
      = some (analyze literalEvent 2 literalSeries) := by
    simp only [analyzeOpt]
    rw [if_neg]
    push_neg
    refine ⟨?_, ?_, ?_⟩ <;>
      norm_num [preWindow, postWindow, mean, literalSeries, literalEvent,
        List.filter] <;>
      simp
  exact ⟨⟨by simp, hsome⟩,
    (rankTolerant_spec [literalEvent, ⟨100, "far"⟩] 2 literalSeries).1
      literalEvent (by simp) _ hsome⟩

/-- C8: in `fetchAllData`, the page-level error is set if and only if the
prices or events request rejected — a failure of the summary, change-point,
volatility or correlation request never sets it — and each rejected
non-critical section falls back to its empty default (null or empty array). -/
theorem fetchAllData_error_policy {ε σ χ ν κ : Type}
    (pr : Settled PricesPayload) (ev : Settled (EventsPayload ε)) (su : Settled σ)
    (cp : Settled (CpPayload χ)) (vo : Settled ν) (co : Settled (CorrPayload κ)) :
    ((computeError pr ev su cp vo co).isSome
        ↔ (pr.isRejected = true ∨ ev.isRejected = true))
    ∧ (su.isRejected = true → (computeNextData pr ev su cp vo co).analysis = none)
    ∧ (cp.isRejected = true → (computeNextData pr ev su cp vo co).changePoints = [])
    ∧ (vo.isRejected = true → (computeNextData pr ev su cp vo co).volatility = none)
    ∧ (co.isRejected = true → (computeNextData pr ev su cp vo co).correlations = []) := by
  refine ⟨?_, ?_, ?_, ?_, ?_⟩
  · rcases pr with v | _ <;> rcases ev with v' | _ <;>
      rcases su with v'' | _ <;> rcases cp with v''' | _ <;>
      rcases vo with v'''' | _ <;> rcases co with v''''' | _ <;>
      simp [computeError, fetchErrors, Settled.isRejected]
  · rcases su with v | _ <;> simp [computeNextData, Settled.isRejected]
  · rcases cp with v | _ <;> simp [computeNextData, Settled.isRejected]
  · rcases vo with v | _ <;> simp [computeNextData, Settled.isRejected]
  · rcases co with v | _ <;> simp [computeNextData, Settled.isRejected]

/-- Witness for C8: with prices and events fulfilled and all four non-critical
requests rejected, each rejected section falls back to its empty default. -/
theorem fetchAllData_error_policy_witness :
    ((Settled.rejected : Settled ℕ).isRejected = true
      ∧ (computeNextData (Settled.fulfilled (some emptyPrices))
          (Settled.fulfilled (some (emptyEvents : EventsPayload ℕ)))
          (Settled.rejected : Settled ℕ)
          (Settled.rejected : Settled (CpPayload ℕ))
          (Settled.rejected : Settled ℕ)
          (Settled.rejected : Settled (CorrPayload ℕ))).analysis = none)
    ∧ ((Settled.rejected : Settled (CpPayload ℕ)).isRejected = true
      ∧ (computeNextData (Settled.fulfilled (some emptyPrices))
          (Settled.fulfilled (some (emptyEvents : EventsPayload ℕ)))
          (Settled.rejected : Settled ℕ)
          (Settled.rejected : Settled (CpPayload ℕ))
          (Settled.rejected : Settled ℕ)
          (Settled.rejected : Settled (CorrPayload ℕ))).changePoints = [])
    ∧ ((Settled.rejected : Settled ℕ).isRejected = true
      ∧ (computeNextData (Settled.fulfilled (some emptyPrices))
          (Settled.fulfilled (some (emptyEvents : EventsPayload ℕ)))
          (Settled.rejected : Settled ℕ)
          (Settled.rejected : Settled (CpPayload ℕ))
          (Settled.rejected : Settled ℕ)
          (Settled.rejected : Settled (CorrPayload ℕ))).volatility = none)
    ∧ ((Settled.rejected : Settled (CorrPayload ℕ)).isRejected = true
      ∧ (computeNextData (Settled.fulfilled (some emptyPrices))
          (Settled.fulfilled (some (emptyEvents : EventsPayload ℕ)))
          (Settled.rejected : Settled ℕ)
          (Settled.rejected : Settled (CpPayload ℕ))
          (Settled.rejected : Settled ℕ)
          (Settled.rejected : Settled (CorrPayload ℕ))).correlations = []) :=
  ⟨⟨rfl, (fetchAllData_error_policy (Settled.fulfilled (some emptyPrices))
      (Settled.fulfilled (some (emptyEvents : EventsPayload ℕ)))
      (Settled.rejected : Settled ℕ) (Settled.rejected : Settled (CpPayload ℕ))
      (Settled.rejected : Settled ℕ)
      (Settled.rejected : Settled (CorrPayload ℕ))).2.1 rfl⟩,
   ⟨rfl, (fetchAllData_error_policy (Settled.fulfilled (some emptyPrices))
      (Settled.fulfilled (some (emptyEvents : EventsPayload ℕ)))
      (Settled.rejected : Settled ℕ) (Settled.rejected : Settled (CpPayload ℕ))
      (Settled.rejected : Settled ℕ)
      (Settled.rejected : Settled (CorrPayload ℕ))).2.2.1 rfl⟩,
   ⟨rfl, (fetchAllData_error_policy (Settled.fulfilled (some emptyPrices))
      (Settled.fulfilled (some (emptyEvents : EventsPayload ℕ)))
      (Settled.rejected : Settled ℕ) (Settled.rejected : Settled (CpPayload ℕ))
      (Settled.rejected : Settled ℕ)
      (Settled.rejected : Settled (CorrPayload ℕ))).2.2.2.1 rfl⟩,
   ⟨rfl, (fetchAllData_error_policy (Settled.fulfilled (some emptyPrices))
      (Settled.fulfilled (some (emptyEvents : EventsPayload ℕ)))
      (Settled.rejected : Settled ℕ) (Settled.rejected : Settled (CpPayload ℕ))
      (Settled.rejected : Settled ℕ)
      (Settled.rejected : Settled (CorrPayload ℕ))).2.2.2.2 rfl⟩⟩

end BrentOil
